import Mathlib

/-!
Verification development for the Pi-Telegram cron scheduler
(`src/cron-service.ts`, types in `src/cron-types.ts`).

The TypeScript source is shallowly embedded: JavaScript numbers that the
service only ever holds as non-negative integers (epoch milliseconds,
durations, counters) are modelled as `Nat`; chat identifiers, which may be
negative, as `Int`; optional (`undefined`-able) values as `Option`;
fallible code (`throw`) as `Except`/`Option`.  JavaScript strings are
modelled as Lean `String`, with the string operations the source uses
(`trim`, the two `replace` calls, `slice`) re-implemented over `List Char`
with JavaScript semantics (the `\s` character class, runs of `[\r\n\t]`).
All characters appearing in the development are in the Basic Multilingual
Plane, where JavaScript UTF-16 code-unit indexing agrees with code points.
-/

/-! ## Data model (`src/cron-types.ts`) -/

/-- `CronSchedule` tagged union (`cron-types.ts`): `at` / `every` / `cron`. -/
inductive CronSchedule where
  | at (atMs : Nat)
  | every (everyMs anchorMs : Nat)
  | cron (expr timezone : String)
  deriving DecidableEq, Repr

/-- `CronJobPolicy` (`cron-types.ts`). -/
structure CronJobPolicy where
  maxLatenessMs : Nat
  retryMax : Nat
  retryBackoffMs : Nat
  deleteAfterRun : Bool
  deriving DecidableEq, Repr

/-- The `lastStatus` literal union `"ok" | "error" | "missed"`. -/
inductive LastStatus where
  | ok
  | error
  | missed
  deriving DecidableEq, Repr

/-- `CronJobState` (`cron-types.ts`); optional fields are `Option`. -/
structure CronJobState where
  nextRunAtMs : Nat
  runningRunId : Option String
  runningAtMs : Option Nat
  lastRunAtMs : Option Nat
  lastStatus : Option LastStatus
  lastError : Option String
  lastDurationMs : Option Nat
  consecutiveFailures : Nat
  deriving DecidableEq, Repr

/-- `CronJobRecord` (`cron-types.ts`). -/
structure CronJobRecord where
  id : String
  botName : String
  chatId : Int
  name : String
  prompt : String
  enabled : Bool
  createdAtMs : Nat
  updatedAtMs : Nat
  schedule : CronSchedule
  policy : CronJobPolicy
  state : CronJobState
  deriving DecidableEq, Repr

/-- `Partial<CronJobPolicy>` as it appears in `CronCreateInput.policy`. -/
structure PolicyInput where
  maxLatenessMs : Option Nat
  retryMax : Option Nat
  retryBackoffMs : Option Nat
  deleteAfterRun : Option Bool
  deriving DecidableEq, Repr

/-- `CronCreateInput` (`cron-types.ts`). -/
structure CronCreateInput where
  chatId : Int
  name : Option String
  prompt : String
  enabled : Option Bool
  schedule : CronSchedule
  policy : Option PolicyInput
  deriving DecidableEq, Repr

/-- `CronExecuteResult` (`cron-types.ts`): both fields optional. -/
structure CronExecuteResult where
  ok : Option Bool
  error : Option String
  deriving DecidableEq, Repr

/-- `CronStoreData` (`cron-types.ts`): the persisted envelope (version 1). -/
structure CronStoreData where
  updatedAtMs : Nat
  jobs : List CronJobRecord
  deriving DecidableEq, Repr

/-- The service options that the embedded functions consult
(`CronServiceOptions` minus the filesystem path). -/
structure CronServiceOpts where
  botName : String
  enabled : Bool
  defaultTimezone : String
  maxJobsPerChat : Nat
  maxRunMs : Nat
  defaultPolicy : CronJobPolicy
  deriving Repr

/-! ## JavaScript string primitives -/

/-- The JavaScript `\s` character class (also the set stripped by
`String.prototype.trim`): space, `\t\n\v\f\r`, NBSP, Ogham space mark,
the U+2000–U+200A range, line/paragraph separators, narrow NBSP,
medium mathematical space, ideographic space and the BOM. -/
def isJsWs (c : Char) : Bool :=
  c = ' ' || c = '\t' || c = '\n' || c = '\r' || c = '\x0b' || c = '\x0c' ||
  c.toNat = 0xa0 || c.toNat = 0x1680 ||
  (0x2000 ≤ c.toNat && c.toNat ≤ 0x200a) ||
  c.toNat = 0x2028 || c.toNat = 0x2029 || c.toNat = 0x202f ||
  c.toNat = 0x205f || c.toNat = 0x3000 || c.toNat = 0xfeff

/-- Characters matched by the regex class `[\r\n\t]` in
`normalizeJobName` / `deriveNameFromPrompt`. -/
def isCtrlRunChar (c : Char) : Bool :=
  c = '\r' || c = '\n' || c = '\t'

/-- `String.prototype.trim` on the underlying character list. -/
def jsTrimL (l : List Char) : List Char :=
  ((l.dropWhile isJsWs).reverse.dropWhile isJsWs).reverse

/-- `String.prototype.trim`. -/
def jsTrim (s : String) : String :=
  String.mk (jsTrimL s.data)

/-- `.replace(/[\r\n\t]+/g, " ")`: every maximal run of CR/LF/TAB becomes a
single space (the space is emitted at the end of the run). -/
def collapseCtrl : List Char → List Char
  | [] => []
  | c :: rest =>
    if isCtrlRunChar c then
      match rest with
      | d :: _ => if isCtrlRunChar d then collapseCtrl rest else ' ' :: collapseCtrl rest
      | [] => [' ']
    else c :: collapseCtrl rest

/-- `.replace(/\s{2,}/g, " ")`: every maximal run of two or more `\s`
characters becomes one space; a lone whitespace character is kept as-is.
The flag records whether the scanner is inside a run whose replacement
space was already emitted. -/
def collapseWsGo : Bool → List Char → List Char
  | _, [] => []
  | inRun, c :: rest =>
    if isJsWs c then
      if inRun then collapseWsGo true rest
      else
        match rest with
        | d :: _ =>
          if isJsWs d then ' ' :: collapseWsGo true rest
          else c :: collapseWsGo false rest
        | [] => [c]
    else c :: collapseWsGo false rest

/-- The normalization pipeline shared by `normalizeJobName` and
`deriveNameFromPrompt`: collapse CR/LF/TAB runs, collapse multi-whitespace
runs, then trim. -/
def cleanupNameL (l : List Char) : List Char :=
  jsTrimL (collapseWsGo false (collapseCtrl l))

/-! ## Name normalization (`cron-service.ts` lines 835–864) -/

/-- The fallback name `` `任务-${id}` ``. -/
def fallbackName (id : String) : String :=
  "任务-" ++ id

/-- Characters of the regex class `["'“”‘’\-•\s]` stripped from the front of
the prompt by `deriveNameFromPrompt`. -/
def isLeadDecorChar (c : Char) : Bool :=
  c = '"' || c = '\'' || c = '“' || c = '”' || c = '‘' || c = '’' ||
  c = '-' || c = '•' || isJsWs c

/-- `deriveNameFromPrompt` (`cron-service.ts` lines 849–864). -/
def deriveNameFromPrompt (prompt id : String) : String :=
  let p := String.mk (cleanupNameL prompt.data)
  if p = "" then fallbackName id
  else
    let keyword := String.mk (jsTrimL (p.data.dropWhile isLeadDecorChar))
    if keyword = "" then fallbackName id
    else if keyword.data.length ≤ 24 then keyword
    else String.mk (keyword.data.take 24) ++ "…"

/-- `normalizeJobName` (`cron-service.ts` lines 835–847). -/
def normalizeJobName (nameInput : Option String) (prompt id : String) : String :=
  let raw := jsTrim (nameInput.getD "")
  let source := if raw = "" then deriveNameFromPrompt prompt id else raw
  let normalized := String.mk (cleanupNameL source.data)
  if normalized = "" then fallbackName id
  else if normalized.data.length ≤ 48 then normalized
  else String.mk (normalized.data.take 48) ++ "…"

example : normalizeJobName (some "hello") "p" "x" = "hello" := by decide
example : normalizeJobName (some "a\r\n\tb") "p" "x" = "a b" := by decide
example : normalizeJobName none "" "id7" = "任务-id7" := by decide
example : normalizeJobName none "  - hi there " "x" = "hi there" := by decide

/-! ## Schedule and policy normalization (`cron-service.ts` lines 687–747) -/

/-- `Number.isSafeInteger` on an integer value: magnitude at most `2^53 - 1`. -/
def isSafeInteger (n : Int) : Bool :=
  n.natAbs ≤ 2 ^ 53 - 1

/-- `normalizeSchedule` (`cron-service.ts` lines 687–727); `none` models a
thrown validation error.  On `Nat` embeddings `Math.floor` is the identity
and `atMs <= 0` / `anchorMs <= 0` mean equality with `0`; a falsy (`0`)
`anchorMs` defaults to `now`. -/
def normalizeSchedule (schedule : CronSchedule) (defaultTimezone : String) (now : Nat) :
    Option CronSchedule :=
  match schedule with
  | .at atMs => if atMs = 0 then none else some (.at atMs)
  | .every everyMs anchorMs =>
    let anchor := if anchorMs = 0 then now else anchorMs
    if everyMs < 1000 then none
    else if anchor = 0 then none
    else some (.every everyMs anchor)
  | .cron expr timezone =>
    let e := jsTrim expr
    if e = "" then none
    else
      let t := jsTrim (if timezone = "" then defaultTimezone else timezone)
      some (.cron e (if t = "" then defaultTimezone else t))

/-- `normalizePolicy` (`cron-service.ts` lines 729–747).  On the `Nat`
embedding the finiteness and non-negativity guards are vacuous; the
`retryBackoffMs >= 1000` clamp remains. -/
def normalizePolicy (policy : Option PolicyInput) (defaults : CronJobPolicy) : CronJobPolicy :=
  let maxLatenessMs := (policy.bind (fun p => p.maxLatenessMs)).getD defaults.maxLatenessMs
  let retryMax := (policy.bind (fun p => p.retryMax)).getD defaults.retryMax
  let retryBackoffMs := (policy.bind (fun p => p.retryBackoffMs)).getD defaults.retryBackoffMs
  { maxLatenessMs := maxLatenessMs
    retryMax := retryMax
    retryBackoffMs := if retryBackoffMs ≥ 1000 then retryBackoffMs else defaults.retryBackoffMs
    deleteAfterRun := (policy.bind (fun p => p.deleteAfterRun)).getD defaults.deleteAfterRun }

/-! ## Next-fire computation (`cron-service.ts` lines 749–771) -/

/-- `computeEveryNextAt` (`cron-service.ts` lines 762–771). -/
def computeEveryNextAt (anchorMs everyMs now : Nat) : Nat :=
  let anchor := max 1 anchorMs
  let interval := max 1000 everyMs
  if now < anchor then anchor
  else anchor + ((now - anchor) / interval + 1) * interval

/-- `initialNextRun` (`cron-service.ts` lines 749–760). -/
def initialNextRun (schedule : CronSchedule) (now : Nat) : Nat :=
  match schedule with
  | .at atMs => atMs
  | .every everyMs anchorMs => computeEveryNextAt anchorMs everyMs now
  | .cron _ _ => 0

example : computeEveryNextAt 5000 1000 5000 = 6000 := by decide
example : computeEveryNextAt 5000 1000 4000 = 5000 := by decide
example : computeEveryNextAt 5000 1000 7500 = 8000 := by decide

/-! ## Trigger scheduling (`cron-service.ts` lines 350–427) -/

/-- The `RunSource` union (`CronExecuteContext["source"]`). -/
inductive RunSource where
  | timer
  | cron
  | manual
  | startupCatchup
  | retry
  deriving DecidableEq, Repr

/-- The externally visible effect of one `scheduleJobUnsafe`-style call:
nothing armed, a run request pushed (`enqueueRunUnsafe`), a one-shot timer
armed (`armTimerUnsafe`), or a croner handle installed.  The call always
clears any previously armed timer/cron handle for the job first
(`unscheduleJobUnsafe`). -/
inductive SchedEffect where
  | none
  | enqueue (source : RunSource) (scheduledAtMs : Nat) (force : Bool)
  | armTimer (dueAt : Nat)
  | armCron
  deriving DecidableEq, Repr

/-- `computeDueAtUnsafe` (`cron-service.ts` lines 395–427).  The function
may mutate the job (the missed-`at` branch disables it); the returned pair
is the updated record and the due instant (`0` means "not scheduled"). -/
def computeDueAt (job : CronJobRecord) (now : Nat) (startup : Bool) :
    CronJobRecord × Nat :=
  match job.schedule with
  | .at atMs =>
    let target := if job.state.nextRunAtMs > 0 then job.state.nextRunAtMs else atMs
    if target > now then (job, target)
    else if now - target > job.policy.maxLatenessMs then
      ({ job with enabled := false,
                  state := { job.state with
                             lastStatus := some .missed,
                             lastError := some "任务已过期，超过允许延迟窗口" } }, 0)
    else (job, now)
  | .every everyMs anchorMs =>
    let next := if job.state.nextRunAtMs > 0 then job.state.nextRunAtMs
                else computeEveryNextAt anchorMs everyMs now
    if next ≤ now then (job, if startup then now else next) else (job, next)
  | .cron _ _ => (job, 0)

/-- `scheduleJobUnsafe` (`cron-service.ts` lines 350–393).  `started`,
`stopping` and `optsEnabled` are the service flags consulted by the early
returns; `cronEval` models the croner constructor for `cron` schedules
(`none` = the constructor throws, `some next` = a handle whose `nextRun()`
is `next`).  The error-message suffix produced from the caught exception is
not modelled. -/
def scheduleJob (job : CronJobRecord) (now : Nat) (startup started stopping optsEnabled : Bool)
    (cronEval : Option (Option Nat)) : CronJobRecord × SchedEffect :=
  if (!started && !startup) || stopping || !optsEnabled || !job.enabled then (job, .none)
  else
    match job.schedule with
    | .cron _ _ =>
      match cronEval with
      | Option.none =>
        ({ job with enabled := false,
                    state := { job.state with
                               lastStatus := some .error,
                               lastError := some "cron 表达式无效",
                               nextRunAtMs := 0 } }, .none)
      | Option.some next =>
        ({ job with state := { job.state with nextRunAtMs := next.getD 0 } }, .armCron)
    | _ =>
      let (job1, dueAt) := computeDueAt job now startup
      let job2 := { job1 with state := { job1.state with nextRunAtMs := dueAt } }
      if dueAt = 0 then (job2, .none)
      else if dueAt ≤ now then
        (job2, .enqueue (if startup then .startupCatchup else .timer) dueAt false)
      else (job2, .armTimer dueAt)

/-! ## create / setEnabled (`cron-service.ts` lines 141–233) -/

/-- `create` (`cron-service.ts` lines 141–181) as a pure function of the
current job map, the input, the clock (`now`) and the generated `id`.
`Except.error` models a thrown `Error`; all throws occur before
`this.jobs.set`, so an error leaves the job map untouched.  The returned
record is the one placed in the map, after the trailing
`scheduleJobUnsafe(job, false)` call (whose enqueue/arm effect is also
returned). -/
def createJob (opts : CronServiceOpts) (jobs : List CronJobRecord) (input : CronCreateInput)
    (now : Nat) (id : String) (started stopping : Bool) (cronEval : Option (Option Nat)) :
    Except String (CronJobRecord × SchedEffect) :=
  let prompt := jsTrim input.prompt
  if prompt = "" then .error "任务内容不能为空"
  else if !isSafeInteger input.chatId then .error "chatId 非法"
  else if (jobs.filter (fun x => x.chatId = input.chatId)).length ≥ opts.maxJobsPerChat then
    .error ("当前聊天任务已达上限（" ++ toString opts.maxJobsPerChat ++ "）")
  else
    match normalizeSchedule input.schedule opts.defaultTimezone now with
    | Option.none => .error "schedule 非法"
    | Option.some schedule =>
      let policy := normalizePolicy input.policy opts.defaultPolicy
      let job : CronJobRecord :=
        { id := id
          botName := opts.botName
          chatId := input.chatId
          name := normalizeJobName input.name prompt id
          prompt := prompt
          enabled := input.enabled.getD true
          createdAtMs := now
          updatedAtMs := now
          schedule := schedule
          policy := policy
          state := { nextRunAtMs := initialNextRun schedule now
                     runningRunId := none
                     runningAtMs := none
                     lastRunAtMs := none
                     lastStatus := none
                     lastError := none
                     lastDurationMs := none
                     consecutiveFailures := 0 } }
      .ok (scheduleJob job now false started stopping opts.enabled cronEval)

/-- `create` at the level of the job map: on success the scheduled record is
added to the map (`this.jobs.set`), on error the map is unchanged. -/
def createInMap (opts : CronServiceOpts) (jobs : List CronJobRecord) (input : CronCreateInput)
    (now : Nat) (id : String) (started stopping : Bool) (cronEval : Option (Option Nat)) :
    Except String (List CronJobRecord × CronJobRecord) :=
  match createJob opts jobs input now id started stopping cronEval with
  | .error e => .error e
  | .ok (job, _) => .ok (jobs ++ [job], job)

/-- `setEnabled` (`cron-service.ts` lines 197–221) restricted to a present
job: flips the flag, zeroes `nextRunAtMs` and unschedules when disabling;
when enabling, backfills a missing `nextRunAtMs` from the schedule and
re-arms via `scheduleJobUnsafe`. -/
def setEnabledJob (job : CronJobRecord) (enabled : Bool) (now : Nat)
    (started stopping optsEnabled : Bool) (cronEval : Option (Option Nat)) :
    CronJobRecord × SchedEffect :=
  let job1 := { job with enabled := enabled, updatedAtMs := now }
  if !enabled then
    ({ job1 with state := { job1.state with nextRunAtMs := 0 } }, .none)
  else
    let job2 :=
      match job1.schedule with
      | .at atMs =>
        if job1.state.nextRunAtMs = 0 then
          { job1 with state := { job1.state with nextRunAtMs := atMs } }
        else job1
      | .every everyMs anchorMs =>
        if job1.state.nextRunAtMs = 0 then
          { job1 with state := { job1.state with
                                 nextRunAtMs := computeEveryNextAt anchorMs everyMs now } }
        else job1
      | .cron _ _ => job1
    scheduleJob job2 now false started stopping optsEnabled cronEval

/-! ## Dispatch (`cron-service.ts` lines 516–644) -/

/-- The first serialized block of `executeRun` (lines 517–534): abort when
the job is gone is handled by the caller; abort when disabled and not
forced, or when a run is already in flight; otherwise stamp
`runningRunId`/`runningAtMs`. -/
def kickRun (job : CronJobRecord) (runId : String) (now : Nat) (force : Bool) :
    Option CronJobRecord :=
  if !job.enabled && !force then none
  else if job.state.runningRunId.isSome then none
  else some { job with
              updatedAtMs := now,
              state := { job.state with
                         runningRunId := some runId,
                         runningAtMs := some now } }

/-- `handleAtCompletionUnsafe` (`cron-service.ts` lines 589–614).  The first
component is `none` when the job is deleted (`deleteAfterRun`); the
`SchedEffect` is the effect of the nested `scheduleJobUnsafe` call on the
retry path. -/
def handleAtCompletion (job : CronJobRecord) (now : Nat) (ok : Bool)
    (started stopping optsEnabled : Bool) : Option CronJobRecord × SchedEffect :=
  if ok then
    if job.policy.deleteAfterRun then (none, .none)
    else (some { job with enabled := false,
                          state := { job.state with nextRunAtMs := 0 } }, .none)
  else if job.state.consecutiveFailures ≤ job.policy.retryMax then
    let factor := job.state.consecutiveFailures - 1
    let retryAt := now + job.policy.retryBackoffMs * 2 ^ factor
    let job1 := { job with state := { job.state with nextRunAtMs := retryAt } }
    let out := scheduleJob job1 now false started stopping optsEnabled none
    (some out.1, out.2)
  else (some { job with enabled := false,
                        state := { job.state with nextRunAtMs := 0 } }, .none)

/-- The final serialized block of `executeRun` (lines 551–584): no-op
unless `runningRunId` still equals the dispatcher's `runId`; clear the
running markers, record the outcome, then reschedule per schedule kind.
`cronHandleNext` models `this.cronHandles.get(job.id)?.nextRun()`. -/
def completeRun (job : CronJobRecord) (runId : String) (endedAt duration : Nat)
    (ok : Bool) (error : Option String) (started stopping optsEnabled : Bool)
    (cronHandleNext : Option Nat) : Option CronJobRecord × SchedEffect :=
  if job.state.runningRunId ≠ some runId then (some job, .none)
  else
    let st0 := { job.state with
                 runningRunId := none
                 runningAtMs := none
                 lastRunAtMs := some endedAt
                 lastDurationMs := some duration }
    let st1 :=
      if ok then
        { st0 with lastStatus := some .ok, lastError := some "", consecutiveFailures := 0 }
      else
        { st0 with
          lastStatus := some .error
          lastError := some (match error with
            | some e => if e = "" then "unknown error" else e
            | none => "unknown error")
          consecutiveFailures := st0.consecutiveFailures + 1 }
    let job1 := { job with updatedAtMs := endedAt, state := st1 }
    match job1.schedule with
    | .at _ => handleAtCompletion job1 endedAt ok started stopping optsEnabled
    | .every everyMs anchorMs =>
      let job2 := { job1 with state := { job1.state with
                    nextRunAtMs := computeEveryNextAt anchorMs everyMs endedAt } }
      let out := scheduleJob job2 endedAt false started stopping optsEnabled none
      (some out.1, out.2)
    | .cron _ _ =>
      (some { job1 with state := { job1.state with
                                   nextRunAtMs := cronHandleNext.getD 0 } }, .none)

/-- How the executor promise settled, as seen by `runExecutor`
(`cron-service.ts` lines 616–644). -/
inductive ExecOutcome where
  | resolved (res : Option CronExecuteResult)
  | threw (msg : String)
  | timedOut
  deriving DecidableEq, Repr

/-- `runExecutor`'s result normalization: a missing executor is an error; a
resolved value `res` yields `ok := res?.ok !== false`; a rejection yields
`ok:false` with the thrown message; the timeout race yields `ok:false`
with the timeout message. -/
def runExecutorResult (hasExecutor : Bool) (outcome : ExecOutcome) (maxRunMs : Nat) :
    Bool × Option String :=
  if !hasExecutor then (false, some "cron executor 未配置")
  else
    match outcome with
    | .resolved res =>
      (decide ((res.bind (fun r => r.ok)) ≠ some false), res.bind (fun r => r.error))
    | .threw msg => (false, some msg)
    | .timedOut =>
      (false, some ("任务执行超时（>" ++ toString ((max 5000 maxRunMs + 500) / 1000) ++ "s）"))

/-! ## Store load / save (`cron-service.ts` lines 257–284, 646–676, 773–833) -/

/-- `normalizeLoadedJob` (`cron-service.ts` lines 773–833), specialized to a
raw record that carries the same field types the service itself persists
(JSON round-trips a well-typed record field-for-field, with absent optional
fields modelled as `none`).  `none` models both a `return null` and a
thrown validation error (the caller skips the record either way). -/
def normalizeLoadedJob (rec : CronJobRecord) (botName : String)
    (defaultPolicy : CronJobPolicy) (defaultTimezone : String) (now : Nat) :
    Option CronJobRecord :=
  let id := jsTrim rec.id
  if id = "" then none
  else if !isSafeInteger rec.chatId then none
  else
    match normalizeSchedule rec.schedule defaultTimezone now with
    | Option.none => none
    | Option.some schedule =>
      let policy := normalizePolicy
        (some { maxLatenessMs := some rec.policy.maxLatenessMs
                retryMax := some rec.policy.retryMax
                retryBackoffMs := some rec.policy.retryBackoffMs
                deleteAfterRun := some rec.policy.deleteAfterRun }) defaultPolicy
      some
        { id := id
          botName := if rec.botName = "" then botName else rec.botName
          chatId := rec.chatId
          prompt := jsTrim rec.prompt
          name := normalizeJobName (some rec.name) rec.prompt id
          enabled := rec.enabled
          createdAtMs := if rec.createdAtMs > 0 then rec.createdAtMs else now
          updatedAtMs := if rec.updatedAtMs > 0 then rec.updatedAtMs else now
          schedule := schedule
          policy := policy
          state :=
            { nextRunAtMs := if rec.state.nextRunAtMs > 0 then rec.state.nextRunAtMs
                             else initialNextRun schedule now
              runningRunId := match rec.state.runningRunId with
                | some s => if jsTrim s = "" then none else some s
                | none => none
              runningAtMs := rec.state.runningAtMs
              lastRunAtMs := rec.state.lastRunAtMs
              lastStatus := rec.state.lastStatus
              lastError := some (rec.state.lastError.getD "")
              lastDurationMs := rec.state.lastDurationMs
              consecutiveFailures := rec.state.consecutiveFailures } }

/-- `persistUnsafe` (`cron-service.ts` lines 646–676): the snapshot written
to disk is the envelope `{version: 1, updatedAtMs, jobs: [...map cloneJob]}`;
`cloneJob` deep-copies, which on immutable records is the identity. -/
def saveStore (jobs : List CronJobRecord) (now : Nat) : CronStoreData :=
  { updatedAtMs := now, jobs := jobs }

/-- `loadStoreUnsafe` (`cron-service.ts` lines 257–284) applied to a
parseable store: each record is normalized, records that fail are
skipped. -/
def loadStore (data : CronStoreData) (botName : String) (defaultPolicy : CronJobPolicy)
    (defaultTimezone : String) (now : Nat) : List CronJobRecord :=
  data.jobs.filterMap (fun r => normalizeLoadedJob r botName defaultPolicy defaultTimezone now)

/-! ## status (`cron-service.ts` lines 122–139) -/

/-- `CronServiceStatus` (`cron-types.ts`). -/
structure CronServiceStatus where
  enabled : Bool
  totalJobs : Nat
  enabledJobs : Nat
  runningJobs : Nat
  queuedJobs : Nat
  nextRunAtMs : Option Nat
  deriving DecidableEq, Repr

/-- The chat filter used by `status` and `list`: keep every job when no
`chatId` is given, else keep the jobs of that chat. -/
def chatFilter (chatId : Option Int) (jobs : List CronJobRecord) : List CronJobRecord :=
  match chatId with
  | none => jobs
  | some c => jobs.filter (fun x => x.chatId = c)

/-- The candidate list whose head `status` reports: `nextRunAtMs` of the
enabled jobs with a positive `nextRunAtMs`, in map order. -/
def statusVals (jobs : List CronJobRecord) (chatId : Option Int) : List Nat :=
  ((chatFilter chatId jobs).filter
    (fun x => x.enabled && decide (x.state.nextRunAtMs > 0))).map
    (fun x => x.state.nextRunAtMs)

/-- `status` (`cron-service.ts` lines 122–139).  The reported `nextRunAtMs`
is the head of the ascending sort of `statusVals` (the JavaScript
`.sort((a, b) => a - b)[0]`, `undefined` on an empty array). -/
def statusOf (optsEnabled : Bool) (jobs : List CronJobRecord) (queueLen : Nat)
    (chatId : Option Int) : CronServiceStatus :=
  let filtered := chatFilter chatId jobs
  { enabled := optsEnabled
    totalJobs := filtered.length
    enabledJobs := (filtered.filter (fun x => x.enabled)).length
    runningJobs := (filtered.filter (fun x => x.state.runningRunId.isSome)).length
    queuedJobs := queueLen
    nextRunAtMs := ((statusVals jobs chatId).mergeSort (· ≤ ·)).head? }

/-! ## Run-queue / dispatch state machine for one job
(`cron-service.ts` lines 486–587)

The fields of the scheduler relevant to the at-most-one-run discipline for
a fixed job `j` are: whether `j.id` is in `queuedJobIds` (equivalently,
whether the `runQueue` holds a request for `j`), the record's
`state.runningRunId`, and the set of in-flight `executeRun` dispatches
that stamped their `runId` into the record and have not yet finalized
(`owners`).  Run ids are modelled as naturals drawn from the fresh counter
`nextRunId` (`randomUUID()` freshness).  One serialized step of the event
loop is one constructor of `RunStep`. -/

/-- The per-job scheduling state. -/
structure JobRunState where
  queued : Bool
  pendingKicks : Nat
  runningRunId : Option Nat
  owners : List Nat
  nextRunId : Nat
  deriving DecidableEq, Repr

/-- The state of a job that has never been triggered. -/
def initialRunState : JobRunState :=
  { queued := false, pendingKicks := 0, runningRunId := none, owners := [], nextRunId := 0 }

/-- `enqueueRunUnsafe` (lines 486–496): a no-op when the job already has a
queued request (`queuedJobIds.has`) or an in-flight run (`runningRunId`);
otherwise the request is pushed and the id recorded. -/
def enqueueRun (s : JobRunState) : JobRunState :=
  if s.queued || s.runningRunId.isSome then s
  else { s with queued := true }

/-- The dequeue in `processRunQueue` (lines 503–509): pop the request and
drop the id from `queuedJobIds`; the popped request will be dispatched by a
later `kick` step. -/
def popRun (s : JobRunState) : JobRunState :=
  { s with queued := false, pendingKicks := s.pendingKicks + 1 }

/-- The first serialized block of `executeRun` (lines 517–534) for a popped
request: abort when the job is disabled and the request is not forced, or
when another run already owns `runningRunId`; otherwise allocate a fresh
`runId` and stamp it. -/
def kickStep (s : JobRunState) (enabled force : Bool) : JobRunState :=
  let s1 := { s with pendingKicks := s.pendingKicks - 1 }
  if !enabled && !force then s1
  else if s1.runningRunId.isSome then s1
  else { s1 with runningRunId := some s1.nextRunId
                 owners := s1.nextRunId :: s1.owners
                 nextRunId := s1.nextRunId + 1 }

/-- The final serialized block of `executeRun` (lines 551–584) for the
dispatch holding `r`: the dispatch always retires from `owners`; the
record's `runningRunId` is cleared only when it still equals `r`. -/
def finishStep (s : JobRunState) (r : Nat) : JobRunState :=
  { s with owners := s.owners.erase r
           runningRunId := if s.runningRunId = some r then none else s.runningRunId }

/-- The serialized steps the event loop can take on one job's run state. -/
inductive RunStep : JobRunState → JobRunState → Prop where
  | enqueue (s : JobRunState) : RunStep s (enqueueRun s)
  | pop (s : JobRunState) (h : s.queued = true) : RunStep s (popRun s)
  | kick (s : JobRunState) (enabled force : Bool) (h : 0 < s.pendingKicks) :
      RunStep s (kickStep s enabled force)
  | finish (s : JobRunState) (r : Nat) (h : r ∈ s.owners) : RunStep s (finishStep s r)

/-- Reachability of a per-job run state from the untriggered state. -/
inductive RunReachable : JobRunState → Prop where
  | init : RunReachable initialRunState
  | step {s t : JobRunState} : RunReachable s → RunStep s t → RunReachable t

/-! ## Concrete fixtures -/

/-- A representative service configuration (defaults within the documented
ranges). -/
def optsDefault : CronServiceOpts :=
  { botName := "bot"
    enabled := true
    defaultTimezone := "UTC"
    maxJobsPerChat := 5
    maxRunMs := 60000
    defaultPolicy := { maxLatenessMs := 300000, retryMax := 2,
                       retryBackoffMs := 60000, deleteAfterRun := false } }

/-- A `create` input that asks for a disabled one-shot job. -/
def inputDisabledAt : CronCreateInput :=
  { chatId := 1, name := some "n", prompt := "hi", enabled := some false,
    schedule := .at 5000, policy := none }

/-- The record `create` stores for `inputDisabledAt` at `now = 1000` with
id `"id1"`: disabled, yet `nextRunAtMs` keeps the schedule-derived `5000`. -/
def jobDisabledAt : CronJobRecord :=
  { id := "id1", botName := "bot", chatId := 1, name := "n", prompt := "hi",
    enabled := false, createdAtMs := 1000, updatedAtMs := 1000,
    schedule := .at 5000,
    policy := { maxLatenessMs := 300000, retryMax := 2,
                retryBackoffMs := 60000, deleteAfterRun := false },
    state := { nextRunAtMs := 5000, runningRunId := none, runningAtMs := none,
               lastRunAtMs := none, lastStatus := none, lastError := none,
               lastDurationMs := none, consecutiveFailures := 0 } }

/-- An enabled one-shot job mid-dispatch: `atMs = 5000`, run `"r1"` in
flight since `5995`. -/
def jobRunningAt : CronJobRecord :=
  { id := "abc", botName := "bot", chatId := 1, name := "hello", prompt := "hi",
    enabled := true, createdAtMs := 1, updatedAtMs := 5995,
    schedule := .at 5000,
    policy := { maxLatenessMs := 300000, retryMax := 2,
                retryBackoffMs := 60000, deleteAfterRun := false },
    state := { nextRunAtMs := 5000, runningRunId := some "r1", runningAtMs := some 5995,
               lastRunAtMs := none, lastStatus := none, lastError := none,
               lastDurationMs := none, consecutiveFailures := 0 } }

/-- The state of `jobRunningAt` after its run succeeds at `6000` (duration
5 ms): disabled one-shot, `nextRunAtMs = 0`. -/
def jobDoneAt : CronJobRecord :=
  { id := "abc", botName := "bot", chatId := 1, name := "hello", prompt := "hi",
    enabled := false, createdAtMs := 1, updatedAtMs := 6000,
    schedule := .at 5000,
    policy := { maxLatenessMs := 300000, retryMax := 2,
                retryBackoffMs := 60000, deleteAfterRun := false },
    state := { nextRunAtMs := 0, runningRunId := none, runningAtMs := none,
               lastRunAtMs := some 6000, lastStatus := some .ok, lastError := some "",
               lastDurationMs := some 5, consecutiveFailures := 0 } }

/-- A fully normalized enabled one-shot job with a pending future fire
(`nextRunAtMs = 5000`). -/
def jobValidAt : CronJobRecord :=
  { id := "abc", botName := "bot", chatId := 1, name := "hello", prompt := "hi",
    enabled := true, createdAtMs := 1, updatedAtMs := 1,
    schedule := .at 5000,
    policy := { maxLatenessMs := 300000, retryMax := 2,
                retryBackoffMs := 60000, deleteAfterRun := false },
    state := { nextRunAtMs := 5000, runningRunId := none, runningAtMs := none,
               lastRunAtMs := none, lastStatus := none, lastError := some "",
               lastDurationMs := none, consecutiveFailures := 0 } }

/-- An enabled one-shot whose `atMs = 1000` lies in the past but whose
`state.nextRunAtMs` was persisted as a pending retry at `5000`. -/
def jobRetryPendingAt : CronJobRecord :=
  { id := "abc", botName := "bot", chatId := 1, name := "hello", prompt := "hi",
    enabled := true, createdAtMs := 1, updatedAtMs := 1,
    schedule := .at 1000,
    policy := { maxLatenessMs := 10000, retryMax := 2,
                retryBackoffMs := 2000, deleteAfterRun := false },
    state := { nextRunAtMs := 5000, runningRunId := none, runningAtMs := none,
               lastRunAtMs := some 1100, lastStatus := some .error, lastError := some "x",
               lastDurationMs := some 100, consecutiveFailures := 1 } }

/-! ## Normal form of an in-memory job record -/

/-- Schedules in the normal form `normalizeSchedule` produces (and that it
maps to themselves). -/
def scheduleWellFormed : CronSchedule → Bool
  | .at atMs => decide (0 < atMs)
  | .every everyMs anchorMs => decide (1000 ≤ everyMs) && decide (1 ≤ anchorMs)
  | .cron expr tz =>
    decide (jsTrim expr = expr) && decide (expr ≠ "") &&
    decide (jsTrim tz = tz) && decide (tz ≠ "")

/-- Whether a schedule is the `cron` variant. -/
def isCronKind : CronSchedule → Bool
  | .cron _ _ => true
  | _ => false

/-- Normal form of an in-memory job record, as the service itself produces
through `create` / `rename` / run completion: trimmed non-empty `id`, safe
`chatId`, non-empty `botName`, trimmed `prompt`, a name that is a fixed
point of `normalizeJobName`, positive timestamps, a schedule in
`normalizeSchedule` normal form, an in-range retry backoff, a positive
`nextRunAtMs` (except for `cron` jobs awaiting their first tick), a
non-blank `runningRunId` when present, and a present (possibly empty)
`lastError` string. -/
def validJob (j : CronJobRecord) : Bool :=
  decide (jsTrim j.id = j.id) && decide (j.id ≠ "") &&
  isSafeInteger j.chatId &&
  decide (j.botName ≠ "") &&
  decide (jsTrim j.prompt = j.prompt) &&
  decide (normalizeJobName (some j.name) j.prompt j.id = j.name) &&
  decide (0 < j.createdAtMs) && decide (0 < j.updatedAtMs) &&
  scheduleWellFormed j.schedule &&
  decide (1000 ≤ j.policy.retryBackoffMs) &&
  (decide (0 < j.state.nextRunAtMs) || isCronKind j.schedule) &&
  (match j.state.runningRunId with
   | some s => decide (jsTrim s ≠ "")
   | none => true) &&
  j.state.lastError.isSome

example : validJob jobValidAt = true := by decide
example : validJob jobDoneAt = false := by decide

/-! ## Theorems -/

/-- The dispatch-ownership invariant: the record's `runningRunId` and the
set of dispatches owning it agree (one owner exactly when the id is set). -/
def runInv (s : JobRunState) : Prop :=
  (∀ r, s.runningRunId = some r → s.owners = [r]) ∧
  (s.runningRunId = none → s.owners = [])


theorem runInv_step {s t : JobRunState} (hs : runInv s) (h : RunStep s t) : runInv t := by
  cases h with
  | enqueue =>
    unfold enqueueRun
    split
    · exact hs
    · exact hs
  | pop _ => exact hs
  | kick enabled force hpk =>
    simp only [kickStep]
    split_ifs with h1 h2
    · exact hs
    · exact hs
    · have hnone : s.runningRunId = none := by
        cases hsr : s.runningRunId with
        | some r' => exact absurd (by rw [hsr]; rfl) h2
        | none => rfl
      refine ⟨?_, ?_⟩
      · intro r hr
        have hr' : some s.nextRunId = some r := hr
        have : s.nextRunId = r := by injection hr'
        subst this
        show s.nextRunId :: s.owners = [s.nextRunId]
        rw [hs.2 hnone]
      · intro hr
        exact Option.noConfusion hr
  | finish r hr =>
    cases hsr : s.runningRunId with
    | some r' =>
      have howners : s.owners = [r'] := hs.1 r' hsr
      have hrr : r = r' := by
        rw [howners] at hr
        simpa using hr
      subst hrr
      have hclear : (finishStep s r).runningRunId = none := by
        simp [finishStep, hsr]
      refine ⟨?_, ?_⟩
      · intro r2 hr2
        rw [hclear] at hr2
        exact Option.noConfusion hr2
      · intro _
        show s.owners.erase r = []
        rw [howners]
        simp
    | none =>
      have howners : s.owners = [] := hs.2 hsr
      rw [howners] at hr
      simp at hr

theorem runInv_reachable {s : JobRunState} (h : RunReachable s) : runInv s := by
  induction h with
  | init =>
    exact ⟨fun r hr => Option.noConfusion hr, fun _ => rfl⟩
  | step _ hstep ih => exact runInv_step ih hstep

/-- C1.  At-most-one run per job: in every reachable per-job scheduler
state at most one in-flight dispatch owns `state.runningRunId`, and
`enqueueRunUnsafe` is a no-op whenever the job already has a queued
request or a set `runningRunId` (so two triggers for the same job
collapse to one). -/
theorem atMostOneRunPerJob (s : JobRunState) (h : RunReachable s) :
    s.owners.length ≤ 1 ∧
    ((s.queued = true ∨ s.runningRunId.isSome = true) → enqueueRun s = s) := by
  constructor
  · have hinv := runInv_reachable h
    cases hr : s.runningRunId with
    | some r => rw [hinv.1 r hr]; exact Nat.le_refl 1
    | none => rw [hinv.2 hr]; exact Nat.zero_le 1
  · intro hq
    unfold enqueueRun
    have hc : (s.queued || s.runningRunId.isSome) = true := by
      rcases hq with h1 | h1 <;> simp [h1]
    rw [if_pos hc]

/-- Witness for C1 at the reachable state enqueue → pop → kick: one
dispatch owns the run and a further enqueue is a no-op. -/
theorem atMostOneRunPerJob_witness :
    (kickStep (popRun (enqueueRun initialRunState)) true false).owners.length ≤ 1 ∧
    (((kickStep (popRun (enqueueRun initialRunState)) true false).queued = true ∨
      (kickStep (popRun (enqueueRun initialRunState)) true false).runningRunId.isSome = true) →
      enqueueRun (kickStep (popRun (enqueueRun initialRunState)) true false) =
        kickStep (popRun (enqueueRun initialRunState)) true false) :=
  atMostOneRunPerJob _
    (RunReachable.step
      (RunReachable.step
        (RunReachable.step RunReachable.init (RunStep.enqueue _))
        (RunStep.pop _ (by decide)))
      (RunStep.kick _ true false (by decide)))

/-- C4 (counterexample).  The claim's characterization — smallest `k ≥ 0`
with `anchor + k·every ≥ now`, hence next fire `= anchor` when
`now = anchor` — fails at `anchorMs = 5000`, `everyMs = 1000`,
`now = 5000`: the code returns `6000`, not `5000`. -/
theorem computeEveryNextAt_counterexample :
    computeEveryNextAt 5000 1000 5000 = 6000 ∧
    ¬ ∃ k, computeEveryNextAt 5000 1000 5000 = 5000 + k * 1000 ∧
        5000 ≤ 5000 + k * 1000 ∧ ∀ j, 5000 ≤ 5000 + j * 1000 → k ≤ j := by
  constructor
  · decide
  · rintro ⟨k, hk, -, hmin⟩
    have h0 : k = 0 := Nat.le_zero.mp (hmin 0 (by omega))
    subst h0
    exact absurd hk (by decide)

/-- C4 (amended).  For a normalized `every` schedule (`everyMs ≥ 1000`,
`anchorMs ≥ 1`), `computeEveryNextAt` returns `anchor + k·every` for the
smallest `k` with `anchor + k·every` STRICTLY greater than `now`; in
particular at `now = anchor` it returns `anchor + every`, not `anchor`. -/
theorem computeEveryNextAt_spec (anchorMs everyMs now : Nat)
    (ha : 1 ≤ anchorMs) (he : 1000 ≤ everyMs) :
    ∃ k, computeEveryNextAt anchorMs everyMs now = anchorMs + k * everyMs ∧
      now < anchorMs + k * everyMs ∧
      ∀ j, now < anchorMs + j * everyMs → k ≤ j := by
  have hep : 0 < everyMs := by omega
  unfold computeEveryNextAt
  rw [Nat.max_eq_right ha, Nat.max_eq_right he]
  by_cases hlt : now < anchorMs
  · rw [if_pos hlt]
    exact ⟨0, by omega, by omega, fun j _ => Nat.zero_le j⟩
  · rw [if_neg hlt]
    push_neg at hlt
    refine ⟨(now - anchorMs) / everyMs + 1, rfl, ?_, ?_⟩
    · have hmod := Nat.div_add_mod (now - anchorMs) everyMs
      have hlt2 : (now - anchorMs) % everyMs < everyMs := Nat.mod_lt _ hep
      have : now - anchorMs < ((now - anchorMs) / everyMs + 1) * everyMs := by
        calc now - anchorMs
            = everyMs * ((now - anchorMs) / everyMs) + (now - anchorMs) % everyMs := hmod.symm
          _ < everyMs * ((now - anchorMs) / everyMs) + everyMs := by omega
          _ = ((now - anchorMs) / everyMs + 1) * everyMs := by ring
      omega
    · intro j hj
      have hje : now - anchorMs < j * everyMs := by omega
      have : (now - anchorMs) / everyMs < j :=
        (Nat.div_lt_iff_lt_mul hep).mpr hje
      omega

/-- Witness for C4 at `(anchorMs, everyMs, now) = (5000, 1000, 4000)`
(future anchor) evaluated through the amended theorem. -/
theorem computeEveryNextAt_spec_witness :
    ∃ k, computeEveryNextAt 5000 1000 4000 = 5000 + k * 1000 ∧
      4000 < 5000 + k * 1000 ∧
      ∀ j, 4000 < 5000 + j * 1000 → k ≤ j :=
  computeEveryNextAt_spec 5000 1000 4000 (by decide) (by decide)

theorem computeDueAt_at_future (job : CronJobRecord) (now : Nat) (startup : Bool) (a : Nat)
    (hAt : job.schedule = .at a) (hFut : now < job.state.nextRunAtMs) :
    computeDueAt job now startup = (job, job.state.nextRunAtMs) := by
  have hpos : 0 < job.state.nextRunAtMs := Nat.lt_of_le_of_lt (Nat.zero_le now) hFut
  unfold computeDueAt
  rw [hAt]
  dsimp only
  rw [if_pos hpos, if_pos hFut]

theorem computeDueAt_fst_or_zero (job : CronJobRecord) (now : Nat) (startup : Bool) :
    (computeDueAt job now startup).1 = job ∨
    ((computeDueAt job now startup).1.enabled = false ∧ (computeDueAt job now startup).2 = 0) := by
  unfold computeDueAt
  cases h : job.schedule <;> dsimp only <;> (repeat' split) <;>
    first
      | exact Or.inl rfl
      | exact Or.inr ⟨rfl, rfl⟩

theorem computeDueAt_disable (job : CronJobRecord) (now : Nat) (startup : Bool)
    (hEnabled : job.enabled = true)
    (hDis : (computeDueAt job now startup).1.enabled = false) :
    (computeDueAt job now startup).2 = 0 := by
  rcases computeDueAt_fst_or_zero job now startup with h | h
  · rw [h, hEnabled] at hDis
    exact Bool.noConfusion hDis
  · exact h.2

theorem computeDueAt_every_fst (job : CronJobRecord) (now : Nat) (startup : Bool)
    (e anc : Nat) (hEv : job.schedule = .every e anc) :
    (computeDueAt job now startup).1 = job := by
  unfold computeDueAt
  rw [hEv]
  dsimp only
  (repeat' split) <;> rfl

theorem scheduleJob_at_future (job : CronJobRecord) (now : Nat)
    (startup started stopping optsEnabled : Bool) (cronEval : Option (Option Nat)) (a : Nat)
    (hAt : job.schedule = .at a)
    (hFut : now < job.state.nextRunAtMs) :
    (scheduleJob job now startup started stopping optsEnabled cronEval).1 = job := by
  unfold scheduleJob
  split
  · rfl
  · rw [hAt]
    dsimp only
    rw [computeDueAt_at_future job now startup a hAt hFut]
    dsimp only
    rw [if_neg (by omega), if_neg (by omega)]

theorem scheduleJob_enabled_or_zero (job : CronJobRecord) (now : Nat)
    (startup started stopping optsEnabled : Bool) (cronEval : Option (Option Nat)) :
    (scheduleJob job now startup started stopping optsEnabled cronEval).1.enabled = job.enabled ∨
    ((scheduleJob job now startup started stopping optsEnabled cronEval).1.enabled = false ∧
     (scheduleJob job now startup started stopping optsEnabled cronEval).1.state.nextRunAtMs = 0) := by
  unfold scheduleJob
  split
  · exact Or.inl rfl
  · have hcd := computeDueAt_fst_or_zero job now startup
    cases h : job.schedule <;> dsimp only
    · rcases hp : computeDueAt job now startup with ⟨j1, due⟩
      rw [hp] at hcd
      dsimp only
      rcases hcd with h1 | h1
      · dsimp only at h1
        subst h1
        split_ifs <;> exact Or.inl rfl
      · dsimp only at h1
        split_ifs with h2 h3
        · exact Or.inr ⟨h1.1, h2⟩
        all_goals exact absurd h1.2 h2
    · rcases hp : computeDueAt job now startup with ⟨j1, due⟩
      rw [hp] at hcd
      dsimp only
      rcases hcd with h1 | h1
      · dsimp only at h1
        subst h1
        split_ifs <;> exact Or.inl rfl
      · dsimp only at h1
        split_ifs with h2 h3
        · exact Or.inr ⟨h1.1, h2⟩
        all_goals exact absurd h1.2 h2
    · cases cronEval with
      | none => exact Or.inr ⟨rfl, rfl⟩
      | some nx => exact Or.inl rfl

theorem scheduleJob_disable_zero (job : CronJobRecord) (now : Nat)
    (startup started stopping optsEnabled : Bool) (cronEval : Option (Option Nat))
    (hEnabled : job.enabled = true)
    (hDis : (scheduleJob job now startup started stopping optsEnabled cronEval).1.enabled = false) :
    (scheduleJob job now startup started stopping optsEnabled cronEval).1.state.nextRunAtMs = 0 := by
  rcases scheduleJob_enabled_or_zero job now startup started stopping optsEnabled cronEval with h | h
  · rw [hDis, hEnabled] at h
    exact Bool.noConfusion h
  · exact h.2

theorem scheduleJob_every_state (job : CronJobRecord) (now : Nat)
    (startup started stopping optsEnabled : Bool) (cronEval : Option (Option Nat))
    (e anc : Nat) (hEv : job.schedule = .every e anc) :
    (scheduleJob job now startup started stopping optsEnabled cronEval).1.enabled = job.enabled ∧
    (scheduleJob job now startup started stopping optsEnabled cronEval).1.state.lastStatus =
      job.state.lastStatus ∧
    (scheduleJob job now startup started stopping optsEnabled cronEval).1.state.lastError =
      job.state.lastError ∧
    (scheduleJob job now startup started stopping optsEnabled cronEval).1.state.consecutiveFailures =
      job.state.consecutiveFailures := by
  unfold scheduleJob
  split
  · exact ⟨rfl, rfl, rfl, rfl⟩
  · rw [hEv]
    dsimp only
    rcases hp : computeDueAt job now startup with ⟨j1, due⟩
    have h1 : j1 = job := by
      have := computeDueAt_every_fst job now startup e anc hEv
      rw [hp] at this
      exact this
    subst h1
    dsimp only
    split_ifs <;> exact ⟨rfl, rfl, rfl, rfl⟩

/-- C5.  Exponential retry for `at` jobs: a failed run taking
`consecutiveFailures` to `k = old + 1` keeps the job enabled with
`nextRunAtMs = now + retryBackoffMs * 2 ^ (k - 1)` while `k ≤ retryMax`,
and disables the job with `nextRunAtMs = 0` (no further retry) once
`k > retryMax` (in particular at `k = retryMax + 1`). -/
theorem atRetryBackoff (job : CronJobRecord) (runId : String)
    (endedAt duration : Nat) (error : Option String)
    (started stopping optsEnabled : Bool) (cronNext : Option Nat) (a : Nat)
    (hAt : job.schedule = .at a)
    (hRun : job.state.runningRunId = some runId)
    (hEnabled : job.enabled = true)
    (hBackoff : 1 ≤ job.policy.retryBackoffMs) :
    ∃ j, (completeRun job runId endedAt duration false error started stopping
            optsEnabled cronNext).1 = some j ∧
      j.state.consecutiveFailures = job.state.consecutiveFailures + 1 ∧
      (job.state.consecutiveFailures + 1 ≤ job.policy.retryMax →
        j.enabled = true ∧
        j.state.nextRunAtMs = endedAt + job.policy.retryBackoffMs *
          2 ^ (job.state.consecutiveFailures + 1 - 1)) ∧
      (job.policy.retryMax < job.state.consecutiveFailures + 1 →
        j.enabled = false ∧ j.state.nextRunAtMs = 0) := by
  unfold completeRun
  rw [hRun]
  rw [if_neg (by simp)]
  dsimp only
  rw [if_neg (by decide)]
  rw [hAt]
  dsimp only
  unfold handleAtCompletion
  rw [if_neg (by decide)]
  dsimp only
  split
  · -- retry branch: consecutiveFailures + 1 ≤ retryMax
    rename_i hle
    set job2 : CronJobRecord :=
      { job with
        updatedAtMs := endedAt
        schedule := CronSchedule.at a
        state := { job.state with
                   runningRunId := none
                   runningAtMs := none
                   lastRunAtMs := some endedAt
                   lastDurationMs := some duration
                   lastStatus := some .error
                   lastError := some (match error with
                     | some e => if e = "" then "unknown error" else e
                     | none => "unknown error")
                   consecutiveFailures := job.state.consecutiveFailures + 1
                   nextRunAtMs := endedAt + job.policy.retryBackoffMs *
                     2 ^ (job.state.consecutiveFailures + 1 - 1) } } with hjob2
    have hsched : (scheduleJob job2 endedAt false started stopping optsEnabled none).1 = job2 := by
      apply scheduleJob_at_future job2 endedAt false started stopping optsEnabled none a
      · rw [hjob2]
      · rw [hjob2]
        show endedAt < endedAt + job.policy.retryBackoffMs *
          2 ^ (job.state.consecutiveFailures + 1 - 1)
        have h2p : 1 ≤ 2 ^ (job.state.consecutiveFailures + 1 - 1) := Nat.one_le_two_pow
        have := Nat.mul_le_mul hBackoff h2p
        omega
    refine ⟨(scheduleJob job2 endedAt false started stopping optsEnabled none).1, rfl, ?_, ?_, ?_⟩
    · rw [hsched, hjob2]
    · intro _
      rw [hsched, hjob2]
      exact ⟨hEnabled, rfl⟩
    · intro hgt
      exact absurd hle (by omega)
  · -- exhausted branch: retryMax < consecutiveFailures + 1
    rename_i hgt
    refine ⟨_, rfl, rfl, ?_, ?_⟩
    · intro hle
      exact absurd hle hgt
    · intro _
      exact ⟨rfl, rfl⟩

/-- Witness for C5: the first failure of `jobRunningAt` (`retryMax = 2`,
`retryBackoffMs = 60000`) reschedules it at `6000 + 60000 · 2^0`. -/
theorem atRetryBackoff_witness :
    ∃ j, (completeRun jobRunningAt "r1" 6000 5 false (some "boom") true false true none).1 =
          some j ∧
      j.state.consecutiveFailures = jobRunningAt.state.consecutiveFailures + 1 ∧
      (jobRunningAt.state.consecutiveFailures + 1 ≤ jobRunningAt.policy.retryMax →
        j.enabled = true ∧
        j.state.nextRunAtMs = 6000 + jobRunningAt.policy.retryBackoffMs *
          2 ^ (jobRunningAt.state.consecutiveFailures + 1 - 1)) ∧
      (jobRunningAt.policy.retryMax < jobRunningAt.state.consecutiveFailures + 1 →
        j.enabled = false ∧ j.state.nextRunAtMs = 0) :=
  atRetryBackoff jobRunningAt "r1" 6000 5 (some "boom") true false true none 5000
    rfl rfl rfl (by decide)

/-- C2 (counterexample).  The invariant "disabled implies
`nextRunAtMs = 0`" is violated directly after a `create` with
`enabled = false`: the stored record is disabled yet keeps the
schedule-derived `nextRunAtMs = 5000` (the `scheduleJobUnsafe` call
returns before zeroing it because the job is disabled). -/
theorem disabledCreateKeepsNextRun :
    createInMap optsDefault [] inputDisabledAt 1000 "id1" true false none =
      .ok ([jobDisabledAt], jobDisabledAt) ∧
    jobDisabledAt.enabled = false ∧
    jobDisabledAt.state.nextRunAtMs = 5000 := by
  refine ⟨rfl, rfl, rfl⟩

/-- C2 (amended).  The operations that TRANSITION a job out of the enabled
state do establish "disabled implies unscheduled": `setEnabled(id, false)`
zeroes `nextRunAtMs` and arms nothing; a post-run `at` completion that
leaves the job disabled leaves `nextRunAtMs = 0`; and any
`scheduleJobUnsafe` call on an enabled job that disables it (expired
one-shot, invalid cron expression) also zeroes `nextRunAtMs`.  (A job
created with `enabled = false`, or loaded from the store as disabled,
keeps a schedule-derived positive `nextRunAtMs`.) -/
theorem disabledImpliesUnscheduled (job : CronJobRecord) (now : Nat)
    (started stopping optsEnabled : Bool) (cronEval : Option (Option Nat)) (ok : Bool)
    (hEnabled : job.enabled = true) :
    ((setEnabledJob job false now started stopping optsEnabled cronEval).1.enabled = false ∧
     (setEnabledJob job false now started stopping optsEnabled cronEval).1.state.nextRunAtMs = 0 ∧
     (setEnabledJob job false now started stopping optsEnabled cronEval).2 = SchedEffect.none) ∧
    (∀ j, (handleAtCompletion job now ok started stopping optsEnabled).1 = some j →
      j.enabled = false → j.state.nextRunAtMs = 0) ∧
    (∀ startup,
      (scheduleJob job now startup started stopping optsEnabled cronEval).1.enabled = false →
      (scheduleJob job now startup started stopping optsEnabled cronEval).1.state.nextRunAtMs = 0) := by
  refine ⟨⟨rfl, rfl, rfl⟩, ?_, ?_⟩
  · unfold handleAtCompletion
    cases ok with
    | true =>
      rw [if_pos rfl]
      split
      · intro j hj
        exact absurd hj (by simp)
      · intro j hj
        have hj' := hj
        simp only [Option.some.injEq] at hj'
        subst hj'
        intro _
        rfl
    | false =>
      rw [if_neg (by decide)]
      split
      · intro j hj
        simp only [Option.some.injEq] at hj
        subst hj
        intro hdis
        exact scheduleJob_disable_zero _ now false started stopping optsEnabled none hEnabled hdis
      · intro j hj
        simp only [Option.some.injEq] at hj
        subst hj
        intro _
        rfl
  · intro startup hdis
    exact scheduleJob_disable_zero job now startup started stopping optsEnabled cronEval
      hEnabled hdis

/-- Witness for the amended C2 at `jobValidAt`: disabling it zeroes
`nextRunAtMs`. -/
theorem disabledImpliesUnscheduled_witness :
    (setEnabledJob jobValidAt false 2000 true false true none).1.state.nextRunAtMs = 0 :=
  (disabledImpliesUnscheduled jobValidAt 2000 true false true none true rfl).1.2.1

/-- C6 (counterexample).  The claim computes lateness from `atMs`, but
`computeDueAtUnsafe` uses the effective target
`nextRunAtMs > 0 ? nextRunAtMs : atMs`.  For `jobRetryPendingAt`
(`atMs = 1000 ≤ now = 2000`, lateness by the claim `1000 ≤`
`maxLatenessMs = 10000`, but persisted retry target `nextRunAtMs = 5000`)
the claim demands a `startup-catchup` enqueue, while the code arms a
timer for `5000` and enqueues nothing. -/
theorem startupAtDispatch_counterexample :
    jobRetryPendingAt.schedule = .at 1000 ∧
    jobRetryPendingAt.enabled = true ∧
    (1000 : Nat) ≤ 2000 ∧
    2000 - 1000 ≤ jobRetryPendingAt.policy.maxLatenessMs ∧
    (scheduleJob jobRetryPendingAt 2000 true false false true none).2 =
      SchedEffect.armTimer 5000 := by
  exact ⟨rfl, rfl, by decide, by decide, rfl⟩

/-- C6 (amended).  At startup (`scheduleJobUnsafe(job, true)` with the
service not yet started), for an enabled `at` job let
`t = (nextRunAtMs > 0 ? nextRunAtMs : atMs)` be the effective target.
If `t > now` a timer is armed for `t`; if `t ≤ now` and
`now − t > maxLatenessMs` the job becomes `enabled = false`,
`lastStatus = missed`, `nextRunAtMs = 0` and nothing is enqueued;
otherwise exactly one run request with source `startup-catchup` and
`scheduledAtMs = now` is enqueued and the job stays enabled. -/
theorem startupAtDispatch (job : CronJobRecord) (now a : Nat)
    (hAt : job.schedule = .at a) (hEnabled : job.enabled = true) (hNow : 0 < now) :
    ((if job.state.nextRunAtMs > 0 then job.state.nextRunAtMs else a) > now →
      (scheduleJob job now true false false true none).2 =
        SchedEffect.armTimer (if job.state.nextRunAtMs > 0 then job.state.nextRunAtMs else a) ∧
      (scheduleJob job now true false false true none).1.enabled = true ∧
      (scheduleJob job now true false false true none).1.state.nextRunAtMs =
        (if job.state.nextRunAtMs > 0 then job.state.nextRunAtMs else a)) ∧
    (¬ ((if job.state.nextRunAtMs > 0 then job.state.nextRunAtMs else a) > now) →
      now - (if job.state.nextRunAtMs > 0 then job.state.nextRunAtMs else a) >
        job.policy.maxLatenessMs →
      (scheduleJob job now true false false true none).1.enabled = false ∧
      (scheduleJob job now true false false true none).1.state.lastStatus = some .missed ∧
      (scheduleJob job now true false false true none).1.state.nextRunAtMs = 0 ∧
      (scheduleJob job now true false false true none).2 = SchedEffect.none) ∧
    (¬ ((if job.state.nextRunAtMs > 0 then job.state.nextRunAtMs else a) > now) →
      ¬ (now - (if job.state.nextRunAtMs > 0 then job.state.nextRunAtMs else a) >
        job.policy.maxLatenessMs) →
      (scheduleJob job now true false false true none).2 =
        SchedEffect.enqueue RunSource.startupCatchup now false ∧
      (scheduleJob job now true false false true none).1.enabled = true ∧
      (scheduleJob job now true false false true none).1.state.nextRunAtMs = now) := by
  set t := (if job.state.nextRunAtMs > 0 then job.state.nextRunAtMs else a) with hT
  have hcond : ((!false && !true) || false || !true || !job.enabled) = false := by
    simp [hEnabled]
  refine ⟨?_, ?_, ?_⟩
  · intro ht
    have hcd : computeDueAt job now true = (job, t) := by
      unfold computeDueAt
      rw [hAt]
      dsimp only
      rw [← hT]
      rw [if_pos ht]
    have hsj : scheduleJob job now true false false true none =
        ({ job with state := { job.state with nextRunAtMs := t } }, SchedEffect.armTimer t) := by
      unfold scheduleJob
      rw [hcond]
      rw [if_neg (by decide)]
      rw [hAt]
      dsimp only
      rw [hcd]
      dsimp only
      rw [if_neg (show ¬ (t = 0) by omega), if_neg (show ¬ (t ≤ now) by omega)]
      rw [hAt]
    rw [hsj]
    exact ⟨rfl, hEnabled, rfl⟩
  · intro ht hlate
    have hcd : computeDueAt job now true =
        ({ job with enabled := false,
                    state := { job.state with
                               lastStatus := some .missed,
                               lastError := some "任务已过期，超过允许延迟窗口" } }, 0) := by
      unfold computeDueAt
      rw [hAt]
      dsimp only
      rw [← hT]
      rw [if_neg ht, if_pos hlate]
    have hsj : scheduleJob job now true false false true none =
        ({ job with enabled := false,
                    state := { job.state with
                               lastStatus := some .missed,
                               lastError := some "任务已过期，超过允许延迟窗口",
                               nextRunAtMs := 0 } }, SchedEffect.none) := by
      unfold scheduleJob
      rw [hcond]
      rw [if_neg (by decide)]
      rw [hAt]
      dsimp only
      rw [hcd]
      dsimp only
      rw [if_pos rfl]
      rw [hAt]
    rw [hsj]
    exact ⟨rfl, rfl, rfl, rfl⟩
  · intro ht hin
    have hcd : computeDueAt job now true = (job, now) := by
      unfold computeDueAt
      rw [hAt]
      dsimp only
      rw [← hT]
      rw [if_neg ht, if_neg hin]
    have hsj : scheduleJob job now true false false true none =
        ({ job with state := { job.state with nextRunAtMs := now } },
         SchedEffect.enqueue RunSource.startupCatchup now false) := by
      unfold scheduleJob
      rw [hcond]
      rw [if_neg (by decide)]
      rw [hAt]
      dsimp only
      rw [hcd]
      dsimp only
      rw [if_neg (show ¬ (now = 0) by omega), if_pos (Nat.le_refl now)]
      rw [hAt]
      rfl
    rw [hsj]
    exact ⟨rfl, hEnabled, rfl⟩

/-- Witness for the amended C6: `jobValidAt` seen at startup with
`now = 1000 < nextRunAtMs = 5000` gets a timer armed for `5000`. -/
theorem startupAtDispatch_witness :
    (scheduleJob jobValidAt 1000 true false false true none).2 =
      SchedEffect.armTimer
        (if jobValidAt.state.nextRunAtMs > 0 then jobValidAt.state.nextRunAtMs else 5000) :=
  ((startupAtDispatch jobValidAt 1000 5000 rfl rfl (by decide)).1 (by decide)).1

/-- C7.  `create` rejects invalid input atomically: an empty trimmed
prompt, a non-safe-integer `chatId`, or a tenant already at
`maxJobsPerChat` jobs makes `create` throw (all three checks precede
`this.jobs.set` and `persistUnsafe`), so the job map is returned
unchanged — no job is added, removed, or modified. -/
theorem createRejectsInvalid (opts : CronServiceOpts) (jobs : List CronJobRecord)
    (input : CronCreateInput) (now : Nat) (id : String) (started stopping : Bool)
    (cronEval : Option (Option Nat))
    (h : jsTrim input.prompt = "" ∨ isSafeInteger input.chatId = false ∨
         opts.maxJobsPerChat ≤ (jobs.filter (fun x => x.chatId = input.chatId)).length) :
    ∃ e, createInMap opts jobs input now id started stopping cronEval = Except.error e := by
  unfold createInMap createJob
  rcases h with h | h | h
  · rw [if_pos h]
    exact ⟨_, rfl⟩
  · by_cases hp : jsTrim input.prompt = ""
    · rw [if_pos hp]
      exact ⟨_, rfl⟩
    · rw [if_neg hp, if_pos (by simp [h])]
      exact ⟨_, rfl⟩
  · by_cases hp : jsTrim input.prompt = ""
    · rw [if_pos hp]
      exact ⟨_, rfl⟩
    · rw [if_neg hp]
      by_cases hs : isSafeInteger input.chatId = true
      · rw [if_neg (by simp [hs]), if_pos h]
        exact ⟨_, rfl⟩
      · rw [if_pos (by simp [Bool.eq_false_iff.mpr hs])]
        exact ⟨_, rfl⟩

/-- Witness for C7: a prompt of blanks is rejected. -/
theorem createRejectsInvalid_witness :
    ∃ e, createInMap optsDefault []
        { chatId := 1, name := none, prompt := "   ", enabled := none,
          schedule := .at 5000, policy := none } 1000 "id9" true false none =
      Except.error e :=
  createRejectsInvalid optsDefault []
    { chatId := 1, name := none, prompt := "   ", enabled := none,
      schedule := .at 5000, policy := none } 1000 "id9" true false none
    (Or.inl (by decide))

/-- C9.  An executor that resolves with `undefined`/`void`, or with a
result object whose `ok` field is absent (anything but an explicit
`ok === false`), is recorded as a successful run: `runExecutor` reports
`ok = true`, and the completion block then sets `lastStatus = "ok"`,
`lastError = ""` and resets `consecutiveFailures` to `0` on the surviving
record. -/
theorem voidExecutorResultIsSuccess (res : Option CronExecuteResult) (maxRunMs : Nat)
    (job : CronJobRecord) (runId : String) (endedAt duration : Nat)
    (started stopping optsEnabled : Bool) (cronNext : Option Nat)
    (hOk : ∀ r, res = some r → r.ok ≠ some false)
    (hRun : job.state.runningRunId = some runId) :
    (runExecutorResult true (.resolved res) maxRunMs).1 = true ∧
    (∀ j, (completeRun job runId endedAt duration
            (runExecutorResult true (.resolved res) maxRunMs).1
            (runExecutorResult true (.resolved res) maxRunMs).2
            started stopping optsEnabled cronNext).1 = some j →
      j.state.lastStatus = some .ok ∧ j.state.lastError = some "" ∧
      j.state.consecutiveFailures = 0) := by
  have h1 : (runExecutorResult true (.resolved res) maxRunMs).1 = true := by
    unfold runExecutorResult
    rw [if_neg (by decide)]
    dsimp only
    cases res with
    | none => rfl
    | some r => exact decide_eq_true (hOk r rfl)
  refine ⟨h1, ?_⟩
  rw [h1]
  unfold completeRun
  rw [hRun]
  rw [if_neg (by simp)]
  dsimp only
  rw [if_pos rfl]
  cases hs : job.schedule with
  | «at» a =>
    dsimp only
    unfold handleAtCompletion
    rw [if_pos rfl]
    split
    · intro j hj
      exact absurd hj (by simp)
    · intro j hj
      simp only [Option.some.injEq] at hj
      subst hj
      exact ⟨rfl, rfl, rfl⟩
  | every e anc =>
    dsimp only
    intro j hj
    simp only [Option.some.injEq] at hj
    subst hj
    have hfields := scheduleJob_every_state
      { job with
        updatedAtMs := endedAt
        schedule := CronSchedule.every e anc
        state := { job.state with
                   runningRunId := none
                   runningAtMs := none
                   lastRunAtMs := some endedAt
                   lastDurationMs := some duration
                   lastStatus := some .ok
                   lastError := some ""
                   consecutiveFailures := 0
                   nextRunAtMs := computeEveryNextAt anc e endedAt } }
      endedAt false started stopping optsEnabled none e anc rfl
    exact ⟨hfields.2.1, hfields.2.2.1, hfields.2.2.2⟩
  | cron ex tz =>
    dsimp only
    intro j hj
    simp only [Option.some.injEq] at hj
    subst hj
    exact ⟨rfl, rfl, rfl⟩

/-- Witness for C9: an executor resolving with `undefined` marks
`jobRunningAt`'s run as ok. -/
theorem voidExecutorResultIsSuccess_witness :
    (runExecutorResult true (.resolved none) 60000).1 = true ∧
    (∀ j, (completeRun jobRunningAt "r1" 6000 5
            (runExecutorResult true (.resolved none) 60000).1
            (runExecutorResult true (.resolved none) 60000).2
            true false true none).1 = some j →
      j.state.lastStatus = some .ok ∧ j.state.lastError = some "" ∧
      j.state.consecutiveFailures = 0) :=
  voidExecutorResultIsSuccess none 60000 jobRunningAt "r1" 6000 5 true false true none
    (fun _ hr => Option.noConfusion hr) rfl

theorem head_mergeSort_min (l : List Nat) :
    ((l.mergeSort (· ≤ ·)).head? = none ↔ l = []) ∧
    (∀ m, (l.mergeSort (· ≤ ·)).head? = some m → m ∈ l ∧ ∀ v ∈ l, m ≤ v) := by
  have hperm : (l.mergeSort (· ≤ ·)).Perm l := List.mergeSort_perm l (· ≤ ·)
  have hsorted := @List.sorted_mergeSort Nat (· ≤ ·)
    (fun a b c hab hbc => by
      simp only [decide_eq_true_eq] at hab hbc ⊢
      omega)
    (fun a b => by
      rcases Nat.le_total a b with h | h <;> simp [h]) l
  cases hms : l.mergeSort (· ≤ ·) with
  | nil =>
    rw [hms] at hperm
    have hl : l = [] := hperm.symm.eq_nil
    refine ⟨⟨fun _ => hl, fun _ => rfl⟩, ?_⟩
    intro m hm
    exact absurd hm (by simp)
  | cons m t =>
    rw [hms] at hperm hsorted
    constructor
    · constructor
      · intro h
        exact absurd h (by simp)
      · intro hl
        rw [hl] at hperm
        exact absurd hperm.eq_nil (by simp)
    · intro m' hm'
      have hmm : m = m' := by simpa using hm'
      subst hmm
      refine ⟨hperm.mem_iff.mp (List.mem_cons_self m t), ?_⟩
      intro v hv
      have hv' : v ∈ m :: t := hperm.mem_iff.mpr hv
      rcases List.mem_cons.mp hv' with h | h
      · omega
      · exact of_decide_eq_true ((List.pairwise_cons.mp hsorted).1 v h)

/-- C10.  `status(chatId?).nextRunAtMs` is the minimum of
`state.nextRunAtMs` over the tenant-matching jobs that are enabled and
have `state.nextRunAtMs > 0` (the head of the ascending sort of
`statusVals`), and is absent exactly when no such job exists; disabled
jobs and jobs with `nextRunAtMs = 0` never contribute. -/
theorem statusNextRunIsMin (optsEnabled : Bool) (jobs : List CronJobRecord)
    (queueLen : Nat) (chatId : Option Int) :
    ((statusOf optsEnabled jobs queueLen chatId).nextRunAtMs = none ↔
      statusVals jobs chatId = []) ∧
    (∀ m, (statusOf optsEnabled jobs queueLen chatId).nextRunAtMs = some m →
      m ∈ statusVals jobs chatId ∧ ∀ v ∈ statusVals jobs chatId, m ≤ v) :=
  head_mergeSort_min (statusVals jobs chatId)

/-- Witness for C10 on the one-job collection `[jobValidAt]`: the reported
next-run instant `5000` is a member of and a lower bound for the
candidate list. -/
theorem statusNextRunIsMin_witness :
    5000 ∈ statusVals [jobValidAt] none ∧ 5000 ≤ 5000 := by
  have hvals : statusVals [jobValidAt] none = [5000] := rfl
  have hnext : (statusOf true [jobValidAt] 0 none).nextRunAtMs = some 5000 := by
    show ((statusVals [jobValidAt] none).mergeSort (· ≤ ·)).head? = some 5000
    rw [hvals, List.mergeSort_singleton]
    rfl
  exact ⟨((statusNextRunIsMin true [jobValidAt] 0 none).2 5000 hnext).1,
    ((statusNextRunIsMin true [jobValidAt] 0 none).2 5000 hnext).2 5000
      (by rw [hvals]; exact List.mem_singleton.mpr rfl)⟩

theorem ctrlRun_isJsWs {c : Char} (h : isCtrlRunChar c = true) : isJsWs c = true := by
  simp only [isCtrlRunChar, Bool.or_eq_true, decide_eq_true_eq] at h
  rcases h with (h | h) | h <;> subst h <;> decide

theorem ws_false_ctrl_false {c : Char} (h : isJsWs c = false) : isCtrlRunChar c = false := by
  cases hc : isCtrlRunChar c with
  | false => rfl
  | true => rw [ctrlRun_isJsWs hc] at h; exact Bool.noConfusion h

theorem mem_collapseCtrl {c : Char} :
    ∀ {l : List Char}, c ∈ collapseCtrl l → c = ' ' ∨ (c ∈ l ∧ isCtrlRunChar c = false) := by
  intro l
  induction l with
  | nil => intro h; exact absurd h (by simp [collapseCtrl])
  | cons a rest ih =>
    intro h
    unfold collapseCtrl at h
    by_cases ha : isCtrlRunChar a = true
    · rw [if_pos ha] at h
      cases rest with
      | nil =>
        simp only [List.mem_singleton] at h
        exact Or.inl h
      | cons d rest' =>
        dsimp only at h
        by_cases hd : isCtrlRunChar d = true
        · rw [if_pos hd] at h
          rcases ih h with h1 | ⟨h2, h3⟩
          · exact Or.inl h1
          · exact Or.inr ⟨List.mem_cons_of_mem a h2, h3⟩
        · rw [if_neg hd] at h
          rcases List.mem_cons.mp h with h1 | h1
          · exact Or.inl h1
          · rcases ih h1 with h2 | ⟨h3, h4⟩
            · exact Or.inl h2
            · exact Or.inr ⟨List.mem_cons_of_mem a h3, h4⟩
    · rw [if_neg ha] at h
      rcases List.mem_cons.mp h with h1 | h1
      · subst h1
        exact Or.inr ⟨List.mem_cons_self c rest, Bool.eq_false_iff.mpr ha⟩
      · rcases ih h1 with h2 | ⟨h3, h4⟩
        · exact Or.inl h2
        · exact Or.inr ⟨List.mem_cons_of_mem a h3, h4⟩

theorem mem_collapseWsGo {c : Char} :
    ∀ {l : List Char} {b : Bool}, c ∈ collapseWsGo b l → c = ' ' ∨ c ∈ l := by
  intro l
  induction l with
  | nil => intro b h; exact absurd h (by simp [collapseWsGo])
  | cons a rest ih =>
    intro b h
    unfold collapseWsGo at h
    by_cases ha : isJsWs a = true
    · rw [if_pos ha] at h
      by_cases hb : b = true
      · rw [if_pos hb] at h
        rcases ih h with h1 | h1
        · exact Or.inl h1
        · exact Or.inr (List.mem_cons_of_mem a h1)
      · rw [if_neg hb] at h
        cases rest with
        | nil =>
          simp only [List.mem_singleton] at h
          subst h
          exact Or.inr (List.mem_cons_self c [])
        | cons d rest' =>
          dsimp only at h
          by_cases hd : isJsWs d = true
          · rw [if_pos hd] at h
            rcases List.mem_cons.mp h with h1 | h1
            · exact Or.inl h1
            · rcases ih h1 with h2 | h2
              · exact Or.inl h2
              · exact Or.inr (List.mem_cons_of_mem a h2)
          · rw [if_neg hd] at h
            rcases List.mem_cons.mp h with h1 | h1
            · subst h1
              exact Or.inr (List.mem_cons_self c (d :: rest'))
            · rcases ih h1 with h2 | h2
              · exact Or.inl h2
              · exact Or.inr (List.mem_cons_of_mem a h2)
    · rw [if_neg ha] at h
      rcases List.mem_cons.mp h with h1 | h1
      · subst h1
        exact Or.inr (List.mem_cons_self c rest)
      · rcases ih h1 with h2 | h2
        · exact Or.inl h2
        · exact Or.inr (List.mem_cons_of_mem a h2)

theorem mem_jsTrimL {c : Char} {l : List Char} (h : c ∈ jsTrimL l) : c ∈ l := by
  unfold jsTrimL at h
  rw [List.mem_reverse] at h
  have h1 := (List.dropWhile_sublist isJsWs).mem h
  rw [List.mem_reverse] at h1
  exact (List.dropWhile_sublist isJsWs).mem h1

theorem cleanupNameL_no_ctrl (l : List Char) :
    ∀ c ∈ cleanupNameL l, isCtrlRunChar c = false := by
  intro c hc
  have hc1 : c ∈ collapseWsGo false (collapseCtrl l) := mem_jsTrimL hc
  rcases mem_collapseWsGo hc1 with h1 | h1
  · subst h1; decide
  · rcases mem_collapseCtrl h1 with h2 | ⟨_, h3⟩
    · subst h2; decide
    · exact h3

theorem dropWhile_eq_self_of {p : Char → Bool} :
    ∀ {l : List Char}, (∀ c ∈ l, p c = false) → l.dropWhile p = l := by
  intro l h
  cases l with
  | nil => rfl
  | cons a rest =>
    rw [List.dropWhile_cons, if_neg]
    rw [h a (List.mem_cons_self a rest)]
    exact Bool.noConfusion

theorem jsTrimL_eq_self {l : List Char} (h : ∀ c ∈ l, isJsWs c = false) : jsTrimL l = l := by
  unfold jsTrimL
  rw [dropWhile_eq_self_of h]
  rw [dropWhile_eq_self_of (fun c hc => h c (List.mem_reverse.mp hc))]
  exact List.reverse_reverse l

theorem collapseCtrl_eq_self :
    ∀ {l : List Char}, (∀ c ∈ l, isCtrlRunChar c = false) → collapseCtrl l = l := by
  intro l
  induction l with
  | nil => intro _; rfl
  | cons a rest ih =>
    intro h
    unfold collapseCtrl
    rw [if_neg (by rw [h a (List.mem_cons_self a rest)]; exact Bool.noConfusion)]
    rw [ih (fun c hc => h c (List.mem_cons_of_mem a hc))]

theorem collapseWsGo_eq_self :
    ∀ {l : List Char} {b : Bool}, (∀ c ∈ l, isJsWs c = false) → collapseWsGo b l = l := by
  intro l
  induction l with
  | nil => intro b _; rfl
  | cons a rest ih =>
    intro b h
    unfold collapseWsGo
    rw [if_neg (by rw [h a (List.mem_cons_self a rest)]; exact Bool.noConfusion)]
    rw [ih (fun c hc => h c (List.mem_cons_of_mem a hc))]

theorem cleanupNameL_eq_self {l : List Char} (h : ∀ c ∈ l, isJsWs c = false) :
    cleanupNameL l = l := by
  unfold cleanupNameL
  rw [collapseCtrl_eq_self (fun c hc => ws_false_ctrl_false (h c hc))]
  rw [collapseWsGo_eq_self h]
  exact jsTrimL_eq_self h

theorem nameIfChain_spec (n id : String)
    (hn : ∀ c ∈ n.data, isCtrlRunChar c = false)
    (hic : ∀ c ∈ id.data, isCtrlRunChar c = false)
    (hil : id.data.length ≤ 32) :
    (if n = "" then fallbackName id
     else if n.data.length ≤ 48 then n
     else String.mk (n.data.take 48) ++ "…") ≠ "" ∧
    (if n = "" then fallbackName id
     else if n.data.length ≤ 48 then n
     else String.mk (n.data.take 48) ++ "…").data.length ≤ 49 ∧
    ∀ c ∈ (if n = "" then fallbackName id
           else if n.data.length ≤ 48 then n
           else String.mk (n.data.take 48) ++ "…").data, isCtrlRunChar c = false := by
  have hfbdata : (fallbackName id).data = '任' :: '务' :: '-' :: id.data := by
    show ("任务-" ++ id).data = _
    rw [String.data_append]
    rfl
  split_ifs with h1 h2
  · refine ⟨?_, ?_, ?_⟩
    · intro hcon
      have := congrArg String.data hcon
      rw [hfbdata] at this
      exact List.noConfusion this
    · rw [hfbdata]
      simp only [List.length_cons]
      omega
    · intro c hc
      rw [hfbdata] at hc
      rcases List.mem_cons.mp hc with h | hc'
      · subst h; decide
      rcases List.mem_cons.mp hc' with h | hc''
      · subst h; decide
      rcases List.mem_cons.mp hc'' with h | hc3
      · subst h; decide
      · exact hic c hc3
  · exact ⟨h1, by omega, hn⟩
  · refine ⟨?_, ?_, ?_⟩
    · intro hcon
      have := congrArg String.data hcon
      rw [String.data_append] at this
      have hne : (String.mk (n.data.take 48)).data ++ ("…").data ≠ [] := by
        simp
      exact hne this
    · rw [String.data_append]
      rw [List.length_append]
      have : (String.mk (n.data.take 48)).data.length = min 48 n.data.length := by
        show (n.data.take 48).length = _
        exact List.length_take 48 n.data
      rw [this]
      have : ("…").data.length = 1 := by decide
      rw [this]
      omega
    · intro c hc
      rw [String.data_append] at hc
      rcases List.mem_append.mp hc with h | h
      · have : c ∈ n.data := (List.take_sublist 48 n.data).mem h
        exact hn c this
      · have : c = '…' := by simpa using h
        subst this
        decide

/-- C8 (counterexample).  Three discrepancies with the claim, each at a
concrete input: a 60-char name is stored with 49 chars (48 plus the
ellipsis), exceeding the claimed 48-glyph bound; a NUL control character
passes through untouched (only CR/LF/TAB runs and `\s` runs are
collapsed); and the double-empty fallback is the localized `任务-<id>`,
not `job-<id>`. -/
theorem normalizeJobName_counterexample :
    (normalizeJobName
      (some "aaaaaaaaaaaaaaaaaaaaaaaaaaaaaaaaaaaaaaaaaaaaaaaaaaaaaaaaaaaa") "p" "x1").data.length
      = 49 ∧
    ¬ ((normalizeJobName
      (some "aaaaaaaaaaaaaaaaaaaaaaaaaaaaaaaaaaaaaaaaaaaaaaaaaaaaaaaaaaaa") "p" "x1").data.length
      ≤ 48) ∧
    normalizeJobName (some (String.mk ['a', '\x00', 'b'])) "p" "x1" =
      String.mk ['a', '\x00', 'b'] ∧
    '\x00' ∈ (normalizeJobName (some (String.mk ['a', '\x00', 'b'])) "p" "x1").data ∧
    normalizeJobName none "" "id7" = "任务-id7" ∧
    "任务-id7" ≠ "job-id7" := by
  refine ⟨by decide, by decide, by decide, by decide, by decide, by decide⟩

/-- C8 (amended).  For every name input and prompt (with the generated
`id` whitespace-free and at most 32 chars, as `generateIdUnsafe`
produces): the stored name is non-empty; it has at most 49 chars — at
most 48 plus a one-char ellipsis marker when truncated; CR/LF/TAB never
survive into it (other control characters such as NUL are not filtered);
and when both the name and the prompt normalize to empty the name is the
localized fallback `任务-<id>`. -/
theorem normalizeJobName_spec (nameInput : Option String) (prompt id : String)
    (hIdWs : ∀ c ∈ id.data, isJsWs c = false)
    (hIdLen : id.data.length ≤ 32) :
    normalizeJobName nameInput prompt id ≠ "" ∧
    (normalizeJobName nameInput prompt id).data.length ≤ 49 ∧
    (∀ c ∈ (normalizeJobName nameInput prompt id).data, isCtrlRunChar c = false) ∧
    (jsTrim (nameInput.getD "") = "" → String.mk (cleanupNameL prompt.data) = "" →
      normalizeJobName nameInput prompt id = fallbackName id) := by
  have hIdCtrl : ∀ c ∈ id.data, isCtrlRunChar c = false :=
    fun c hc => ws_false_ctrl_false (hIdWs c hc)
  have main := nameIfChain_spec
    (String.mk (cleanupNameL
      (if jsTrim (nameInput.getD "") = "" then deriveNameFromPrompt prompt id
       else jsTrim (nameInput.getD "")).data))
    id
    (fun c hc => cleanupNameL_no_ctrl _ c hc)
    hIdCtrl hIdLen
  have hfbdata : (fallbackName id).data = '任' :: '务' :: '-' :: id.data := by
    show ("任务-" ++ id).data = _
    rw [String.data_append]
    rfl
  refine ⟨main.1, main.2.1, main.2.2, ?_⟩
  intro hraw hp
  unfold normalizeJobName
  rw [hraw]
  dsimp only
  rw [if_pos rfl]
  unfold deriveNameFromPrompt
  rw [hp]
  dsimp only
  rw [if_pos rfl]
  have hfbws : ∀ c ∈ (fallbackName id).data, isJsWs c = false := by
    intro c hc
    rw [hfbdata] at hc
    rcases List.mem_cons.mp hc with h | hc'
    · subst h; decide
    rcases List.mem_cons.mp hc' with h | hc''
    · subst h; decide
    rcases List.mem_cons.mp hc'' with h | hc3
    · subst h; decide
    · exact hIdWs c hc3
  rw [cleanupNameL_eq_self hfbws]
  rw [show String.mk ((fallbackName id).data) = fallbackName id from rfl]
  have hfbne : fallbackName id ≠ "" := by
    intro hcon
    have := congrArg String.data hcon
    rw [hfbdata] at this
    exact List.noConfusion this
  have hfblen : (fallbackName id).data.length ≤ 48 := by
    rw [hfbdata]
    simp only [List.length_cons]
    omega
  rw [if_neg hfbne, if_pos hfblen]

/-- Witness for the amended C8 at a concrete input. -/
theorem normalizeJobName_spec_witness :
    normalizeJobName (some "hello") "p" "id1" ≠ "" :=
  (normalizeJobName_spec (some "hello") "p" "id1" (by decide) (by decide)).1

theorem normalizeSchedule_wf (s : CronSchedule) (dtz : String) (now : Nat)
    (h : scheduleWellFormed s = true) : normalizeSchedule s dtz now = some s := by
  cases s with
  | «at» atMs =>
    simp only [scheduleWellFormed, decide_eq_true_eq] at h
    unfold normalizeSchedule
    dsimp only
    rw [if_neg (by omega)]
  | every e anc =>
    simp only [scheduleWellFormed, Bool.and_eq_true, decide_eq_true_eq] at h
    unfold normalizeSchedule
    dsimp only
    rw [if_neg (show ¬ (anc = 0) by omega)]
    rw [if_neg (show ¬ (e < 1000) by omega), if_neg (show ¬ (anc = 0) by omega)]
  | cron expr tz =>
    simp only [scheduleWellFormed, Bool.and_eq_true, decide_eq_true_eq] at h
    obtain ⟨⟨⟨h1, h2⟩, h3⟩, h4⟩ := h
    unfold normalizeSchedule
    dsimp only
    rw [h1]
    rw [if_neg h2]
    rw [if_neg h4]
    rw [h3]
    rw [if_neg h4]

theorem normalizeLoadedJob_roundtrip (j : CronJobRecord) (botName : String)
    (defaultPolicy : CronJobPolicy) (defaultTimezone : String) (now : Nat)
    (h : validJob j = true) :
    normalizeLoadedJob j botName defaultPolicy defaultTimezone now = some j := by
  obtain ⟨jid, jbot, jchat, jname, jprompt, jen, jcr, jup, jsched, jpol, jstate⟩ := j
  obtain ⟨jml, jrm, jrb, jdel⟩ := jpol
  obtain ⟨jnext, jrun, jrat, jlra, jls, jle, jld, jcf⟩ := jstate
  simp only [validJob, Bool.and_eq_true, Bool.or_eq_true, decide_eq_true_eq] at h
  obtain ⟨⟨⟨⟨⟨⟨⟨⟨⟨⟨⟨⟨h1, h2⟩, h3⟩, h4⟩, h5⟩, h6⟩, h7⟩, h8⟩, h9⟩, h10⟩, h11⟩, h12⟩, h13⟩ := h
  have hnextfield : (if jnext > 0 then jnext else initialNextRun jsched now) = jnext := by
    by_cases hp : jnext > 0
    · rw [if_pos hp]
    · rcases h11 with hp2 | hcron
      · exact absurd hp2 hp
      · rw [if_neg hp]
        cases jsched with
        | cron e t =>
          show (0 : Nat) = jnext
          omega
        | «at» a => simp [isCronKind] at hcron
        | every e a => simp [isCronKind] at hcron
  cases jle with
  | none => exact absurd h13 (by simp)
  | some le =>
    cases jrun with
    | none =>
      unfold normalizeLoadedJob normalizePolicy
      rw [h1]
      rw [if_neg h2]
      rw [h3]
      rw [if_neg (by decide)]
      rw [normalizeSchedule_wf jsched defaultTimezone now h9]
      dsimp only
      simp only [Option.bind, Option.getD, ge_iff_le]
      rw [if_neg h4, h5, h6, if_pos h7, if_pos h8, if_pos h10, hnextfield]
    | some rs =>
      dsimp only at h12
      have hrs : jsTrim rs ≠ "" := of_decide_eq_true h12
      unfold normalizeLoadedJob normalizePolicy
      rw [h1]
      rw [if_neg h2]
      rw [h3]
      rw [if_neg (by decide)]
      rw [normalizeSchedule_wf jsched defaultTimezone now h9]
      dsimp only
      simp only [Option.bind, Option.getD, ge_iff_le]
      rw [if_neg h4, h5, h6, if_pos h7, if_pos h8, if_pos h10, hnextfield, if_neg hrs]

/-- C3 (counterexample).  Round-trip fails on reachable states: after a
successful run of the one-shot `jobRunningAt` (no `deleteAfterRun`) the
stored record `jobDoneAt` is disabled with `nextRunAtMs = 0`, but
`normalizeLoadedJob` repopulates `nextRunAtMs` from the schedule
(`atMs = 5000`) on load, so `load(save(S)) ≠ S`. -/
theorem storeRoundTrip_counterexample :
    (completeRun jobRunningAt "r1" 6000 5 true none true false true none).1 = some jobDoneAt ∧
    loadStore (saveStore [jobDoneAt] 6000) "bot"
      { maxLatenessMs := 300000, retryMax := 2, retryBackoffMs := 60000, deleteAfterRun := false }
      "UTC" 7000 ≠ [jobDoneAt] := by
  refine ⟨rfl, by decide⟩

/-- C3 (amended).  `load(save(S)) = S` holds for every collection of
records in the normal form the service itself maintains for schedulable
jobs (`validJob`: trimmed non-empty `id`/`prompt`, safe `chatId`,
normalized name/schedule/policy, `lastError` present, and
`state.nextRunAtMs > 0` unless the schedule is `cron`); it fails for
`at`/`every` records persisted with `nextRunAtMs = 0` (e.g. completed or
disabled one-shots), whose `nextRunAtMs` is repopulated from the schedule
on load. -/
theorem storeRoundTrip (S : List CronJobRecord) (botName : String)
    (defaultPolicy : CronJobPolicy) (defaultTimezone : String) (saveNow loadNow : Nat)
    (h : ∀ j ∈ S, validJob j = true) :
    loadStore (saveStore S saveNow) botName defaultPolicy defaultTimezone loadNow = S := by
  unfold loadStore saveStore
  dsimp only
  induction S with
  | nil => rfl
  | cons j rest ih =>
    rw [List.filterMap_cons]
    rw [normalizeLoadedJob_roundtrip j botName defaultPolicy defaultTimezone loadNow
      (h j (List.mem_cons_self j rest))]
    rw [ih (fun x hx => h x (List.mem_cons_of_mem j hx))]

/-- Witness for the amended C3: the singleton collection `[jobValidAt]`
is in normal form and survives a save/load cycle unchanged. -/
theorem storeRoundTrip_witness :
    validJob jobValidAt = true ∧
    loadStore (saveStore [jobValidAt] 100) "bot" optsDefault.defaultPolicy "UTC" 7000 =
      [jobValidAt] :=
  ⟨by decide,
   storeRoundTrip [jobValidAt] "bot" optsDefault.defaultPolicy "UTC" 100 7000
     (fun j hj => by
       rw [List.mem_singleton] at hj
       subst hj
       decide)⟩
